import Mathlib

/-!
Verification development for the jaspervault minibridge demo.

The repository relays ERC-20 transfers observed on Arbitrum to payouts on
BitLayer (backend webhook handler, two variants in src/backend/src/index.ts)
and confirms the payout by scanning BitLayer from the browser
(src/frontend/src/components/Bridge.tsx, plus an earlier variant in
src/unnamed/part_001).

The development shallowly embeds, from the source:
  * the ethers v5 fixed-point helpers the code calls (parseUnits/parseFixed,
    formatUnits/formatFixed, parseEther), on decimal strings and integers;
  * the JavaScript number round trip the code performs in the middle of its
    amount conversion (parseFloat followed by Number.prototype.toString):
    nearest binary64 value as an exact rational, shortest round-tripping
    decimal representation, ECMA-262 Number::toString formatting;
  * the webhook dispatcher loop of the first backend variant (guard set,
    wallet filter, token registry lookup, payout handlers, guard release on
    failure);
  * the asset-matching branches of the second backend variant;
  * the frontend confirmation monitor: per-tick scanning of BitLayer blocks
    (native mode) or Transfer logs (token mode), the timestamp gate, the
    block cursor, the attempt budget and the timeout transition.

Machine integers (ethers BigNumber, block heights, timestamps) are embedded
as Int/Nat; fallible library calls (throwing parses, null RPC answers) as
Option/Except.
-/

/-! ## Decimal-digit strings -/

/-- Numeric value of a digit character ( '0' to '9' ). -/
def charVal (c : Char) : ℕ := c.toNat - 48

/-- Value of a big-endian string of digit characters. -/
def digitsVal (l : List Char) : ℕ := l.foldl (fun acc c => 10 * acc + charVal c) 0

/-- Little-endian base-10 digits of a natural number, with explicit fuel so
that the definition is structural (and hence kernel-evaluable). -/
def natDigitsRev : ℕ → ℕ → List ℕ
  | 0, _ => []
  | f + 1, n => if n = 0 then [] else n % 10 :: natDigitsRev f (n / 10)

/-- Big-endian digit characters of a natural number, as `toString` renders
nonnegative integers (ethers BigNumber `toString`). -/
def natChars (n : ℕ) : List Char :=
  if n = 0 then ['0']
  else ((natDigitsRev n n).map (fun d => Char.ofNat (d + 48))).reverse

/-- Left-pad a digit string with zeros to length `k`. -/
def padZeros (k : ℕ) (l : List Char) : List Char :=
  List.replicate (k - l.length) '0' ++ l

/-- Split a character list at the first '.' : the part before it, and
(when a dot is present) the part after it. -/
def breakDot : List Char → List Char × Option (List Char)
  | [] => ([], none)
  | c :: cs =>
    if c = '.' then ([], some cs)
    else
      let r := breakDot cs
      (c :: r.1, r.2)

/-- ASCII lower-casing of a string, as `String.prototype.toLowerCase`
behaves on the hexadecimal addresses the code compares. -/
def lowerStr (s : String) : String := ⟨s.data.map Char.toLower⟩

/-! ## ethers v5 fixed-point helpers -/

/-- ethers v5 `parseFixed(value, decimals)` (hence `parseUnits` and, at 18
decimals, `parseEther`): requires the string to match `-?[0-9.]+` with at
most one dot and not be a bare dot, rejects a fractional part longer than
`decimals`, and returns the amount scaled by `10 ^ decimals`.  `none` models
the throw. -/
def parseFixed (value : String) (decimals : ℕ) : Option ℤ :=
  let (negative, rest) :=
    match value.data with
    | '-' :: t => (true, t)
    | l => (false, l)
  if rest.isEmpty then none
  else if !rest.all (fun c => c.isDigit || c == '.') then none
  else if rest = ['.'] then none
  else
    let (whole, fracOpt) := breakDot rest
    let fraction := match fracOpt with
      | none => ['0']
      | some [] => ['0']
      | some f => f
    if (fracOpt.getD []).any (· == '.') then none
    else if decimals < fraction.length then none
    else
      let wei : ℤ :=
        digitsVal whole * 10 ^ decimals
          + digitsVal fraction * 10 ^ (decimals - fraction.length)
      some (if negative then -wei else wei)

/-- ethers v5 `formatFixed(value, decimals)` (hence `formatUnits` and
`formatEther`): whole part, a dot, then the fractional digits left-padded to
`decimals` with trailing zeros stripped (at least one digit kept). -/
def formatFixed (value : ℤ) (decimals : ℕ) : String :=
  let n := value.natAbs
  let whole := n / 10 ^ decimals
  let fracPadded := padZeros decimals (natChars (n % 10 ^ decimals))
  let stripped := (fracPadded.reverse.dropWhile (· = '0')).reverse
  let fraction := if stripped.isEmpty then ['0'] else stripped
  ⟨(if value < 0 then ['-'] else []) ++ natChars whole ++ '.' :: fraction⟩

/-! ## The JavaScript binary64 round trip

`handleNativeTransfer` (backend) and `monitorBitlayerTransaction` /
`monitorNativeTransfer` (frontend) convert the 8-decimal amount to 18
decimals through `parseFloat(ethers.utils.formatUnits(x, 8))` followed by
`ethers.utils.parseEther(n.toString())`.  The float step is embedded
exactly: `parseFloat` of a decimal string yields the nearest IEEE-754
binary64 value, and `Number.prototype.toString` yields the shortest decimal
that parses back to the same binary64 value, formatted per ECMA-262
Number::toString (scientific notation below 10^-6).  The model covers the
normal (non-subnormal, non-overflowing) positive range, which contains every
representable token amount; nonnegative rationals are carried as raw
numerator/denominator pairs of naturals and a binary64 value as its
significand/exponent pair (value `m * 2 ^ (e - 52)` with
`2 ^ 52 <= m < 2 ^ 53`). -/

/-- Floor of the base-`b` logarithm, by structural recursion on fuel. -/
def logFuel : ℕ → ℕ → ℕ → ℕ
  | 0, _, _ => 0
  | f + 1, b, n => if n < b then 0 else logFuel f b (n / b) + 1

/-- Multiply the fraction `a / b` by `2 ^ k` (possibly negative `k`). -/
def qmul2 (a b : ℕ) (k : ℤ) : ℕ × ℕ :=
  if 0 ≤ k then (a * 2 ^ k.toNat, b) else (a, b * 2 ^ (-k).toNat)

/-- Multiply the fraction `a / b` by `10 ^ k` (possibly negative `k`). -/
def qmul10 (a b : ℕ) (k : ℤ) : ℕ × ℕ :=
  if 0 ≤ k then (a * 10 ^ k.toNat, b) else (a, b * 10 ^ (-k).toNat)

/-- Does `base ^ k ≤ a / b` hold (positive `a`, `b`)? -/
def powLe (base : ℕ) (k : ℤ) (a b : ℕ) : Bool :=
  if 0 ≤ k then b * base ^ k.toNat ≤ a else b ≤ a * base ^ (-k).toNat

/-- Round the fraction `a / b` to the nearest integer, ties to even — the
rounding IEEE-754 applies in decimal-to-binary conversion and the digit
selection rule of Number::toString. -/
def roundNTE (a b : ℕ) : ℕ :=
  let f := a / b
  let r := a % b
  if 2 * r < b then f
  else if b < 2 * r then f + 1
  else if f % 2 = 0 then f else f + 1

/-- Binary exponent `e` of the positive fraction `a / b`:
`2 ^ e ≤ a / b < 2 ^ (e + 1)`. -/
def binExp (a b : ℕ) : ℤ :=
  let e0 : ℤ := (logFuel a 2 a : ℤ) - (logFuel b 2 b : ℤ)
  if powLe 2 e0 a b then e0 else e0 - 1

/-- Nearest IEEE-754 binary64 value of the positive fraction `a / b`, as a
significand/exponent pair (53-bit significand, round to nearest, ties to
even; normal range). -/
def nearestDouble (a b : ℕ) : ℕ × ℤ :=
  if a = 0 then (0, 0)
  else
    let e := binExp a b
    let p := qmul2 a b (52 - e)
    let m := roundNTE p.1 p.2
    if m = 2 ^ 53 then (2 ^ 52, e + 1) else (m, e)

/-- The binary64 value `m * 2 ^ (e - 52)` as a fraction. -/
def dblToFrac (me : ℕ × ℤ) : ℕ × ℕ :=
  if 0 ≤ me.2 - 52 then (me.1 * 2 ^ (me.2 - 52).toNat, 1)
  else (me.1, 2 ^ (52 - me.2).toNat)

/-- The value `s * 10 ^ (n - k)` of `k` significand digits `s` at decimal
exponent `n`, as a fraction. -/
def digFrac (s : ℕ) (j : ℤ) : ℕ × ℕ :=
  if 0 ≤ j then (s * 10 ^ j.toNat, 1) else (s, 10 ^ (-j).toNat)

/-- Decimal exponent `n` of the positive fraction `a / b`:
`10 ^ (n - 1) ≤ a / b < 10 ^ n`. -/
def decExp (a b : ℕ) : ℤ :=
  let n0 : ℤ := (logFuel a 10 a : ℤ) - (logFuel b 10 b : ℤ) + 1
  if powLe 10 (n0 - 1) a b then n0 else n0 - 1

/-- Shortest decimal significand for a positive binary64 value: the least
digit count `k ≤ 17` whose nearest `k`-digit decimal parses back to exactly
the same binary64 value; returns the significand digits `s` and the decimal
exponent `n` (the value is `s * 10 ^ (n - k)`). -/
def shortestDigits (me : ℕ × ℤ) : ℕ × ℤ :=
  let f := dblToFrac me
  let n := decExp f.1 f.2
  let found := (List.range 17).findSome? fun i =>
    let k : ℕ := i + 1
    let p := qmul10 f.1 f.2 ((k : ℤ) - n)
    let s : ℕ := roundNTE p.1 p.2
    if s = 10 ^ k then
      let c := digFrac 1 n
      if nearestDouble c.1 c.2 = me then some (1, n + 1) else none
    else
      let c := digFrac s (n - (k : ℤ))
      if nearestDouble c.1 c.2 = me then some (s, n) else none
  found.getD (0, 0)

/-- ECMA-262 Number::toString(10) for a positive value with significand
digits `s` and decimal exponent `n`. -/
def jsFormatDigits (s : ℕ) (n : ℤ) : List Char :=
  let D := natChars s
  let k : ℤ := D.length
  if k ≤ n ∧ n ≤ 21 then D ++ List.replicate (n - k).toNat '0'
  else if 0 < n ∧ n ≤ 21 then D.take n.toNat ++ '.' :: D.drop n.toNat
  else if -6 < n ∧ n ≤ 0 then '0' :: '.' :: (List.replicate (-n).toNat '0' ++ D)
  else
    let e := n - 1
    let es := if 0 ≤ e then '+' :: natChars e.toNat else '-' :: natChars (-e).toNat
    if D.length = 1 then D ++ 'e' :: es
    else D.take 1 ++ '.' :: D.drop 1 ++ 'e' :: es

/-- A plain nonnegative decimal string (the shape `formatFixed` produces) as
an exact fraction, as `parseFloat` reads it before binary rounding. -/
def parseDecimalFrac (s : String) : Option (ℕ × ℕ) :=
  let l := s.data
  if l.isEmpty then none
  else if !l.all (fun c => c.isDigit || c == '.') then none
  else
    let (whole, fracOpt) := breakDot l
    let fraction := fracOpt.getD []
    if fraction.any (· == '.') then none
    else some (digitsVal whole * 10 ^ fraction.length + digitsVal fraction, 10 ^ fraction.length)

/-- The JavaScript round trip the conversion code performs on a decimal
string: `parseFloat` (nearest binary64) then `Number.prototype.toString`
(shortest round-tripping decimal, ECMA-262 formatting). -/
def jsFloatRoundTrip (s : String) : Option String :=
  (parseDecimalFrac s).map fun ab =>
    if ab.1 = 0 then "0"
    else
      let sn := shortestDigits (nearestDouble ab.1 ab.2)
      ⟨jsFormatDigits sn.1 sn.2⟩

/-- The amount conversion of `handleNativeTransfer` (backend) and of the
native-mode amount check in `monitorBitlayerTransaction` (frontend):
`parseUnits(value, decimals)`, `formatUnits` back, through a JavaScript
number, then `parseEther` of its `toString`.  `none` models a throw at any
step (ethers rejects the scientific notation `toString` produces below
10^-6). -/
def codeTranslate (value : String) (decimals : ℕ) : Option ℤ :=
  (parseFixed value decimals).bind fun sourceAmount =>
    (jsFloatRoundTrip (formatFixed sourceAmount decimals)).bind fun sourceNumber =>
      parseFixed sourceNumber 18

/-! ## The spec's Amount Translator

The repository hardcodes the single float-based 8-to-18 conversion above and
has no general translation routine, so the general contract of spec section
4.2 is modelled from the spec's words below. -/

/-- Modelled from the spec: section 4.2 Amount Translator input validation —
a well-formed non-negative decimal with at most `p` fractional digits,
represented as an arbitrary-precision integer scaled by `10 ^ p`; `none` is
`InvalidAmount`.  (The repository has no general translator; only the
hardcoded float-based 8-to-18 pipeline `codeTranslate` exists in the code.) -/
def specParseAmount (x : String) (p : ℕ) : Option ℕ :=
  let l := x.data
  if l.isEmpty then none
  else if !l.all (fun c => c.isDigit || c == '.') then none
  else
    match breakDot l with
    | (w, none) => some (digitsVal w * 10 ^ p)
    | (w, some f) =>
      if f.any (· == '.') then none
      else if w.isEmpty ∧ f.isEmpty then none
      else if p < f.length then none
      else some (digitsVal w * 10 ^ p + digitsVal f * 10 ^ (p - f.length))

/-- Full-precision decimal rendering of an amount `n` scaled by `10 ^ p`:
the whole part, then exactly `p` fractional digits (the spec's scenarios
render amounts this way, for example 0.005000000000000000). -/
def formatAmountFull (n : ℕ) (p : ℕ) : String :=
  if p = 0 then ⟨natChars n⟩
  else ⟨natChars (n / 10 ^ p) ++ '.' :: padZeros p (natChars (n % 10 ^ p))⟩

/-- Modelled from the spec: section 4.2 Amount Translator —
`translate(amount, fromPrecision, toPrecision)`: represent the amount as an
arbitrary-precision integer scaled by `10 ^ fromPrecision`, rescale to
`10 ^ toPrecision` (appending zero digits when the precision grows,
truncating when it shrinks), with no floating-point step. -/
def translateAmount (amount : String) (fromPrecision toPrecision : ℕ) : Option String :=
  (specParseAmount amount fromPrecision).map fun n =>
    formatAmountFull
      (if fromPrecision ≤ toPrecision then n * 10 ^ (toPrecision - fromPrecision)
       else n / 10 ^ (fromPrecision - toPrecision))
      toPrecision

/-! ## Backend webhook dispatcher (first variant, src/backend/src/index.ts)

The first webhook variant: a volatile `processedTxs` guard set, a
case-insensitive bridge-wallet filter, a token-registry lookup over
`Object.values(TOKENS)`, then `handleNativeTransfer` or
`handleTokenTransfer`; the guard entry is added before the payout attempt
and deleted when it fails.  RPC submission outcomes are an oracle
`rpc : ActivityLog -> Except Unit String` (`.ok txHash` when the
transaction is sent, confirmed by `tx.wait(1)`; `.error` when submission
throws or the receipt reverts — both helpers catch and report failure). -/

/-- Backend `TokenConfig` (the `abi` string list is configuration the model
does not consume). -/
structure TokenConfig where
  symbol : String
  name : String
  sourceAddress : String
  targetAddress : Option String
  decimals : ℕ
  isNative : Bool
  deriving DecidableEq

/-- The `rawContract` metadata of a webhook activity. -/
structure RawContract where
  address : String
  decimals : ℕ
  rawValue : String
  deriving DecidableEq

/-- One entry of `webhookData.event.activity`.  `value` arrives as a JSON
number; the handlers only ever use `activity.value.toString()`, so the model
carries that decimal string. -/
structure ActivityLog where
  fromAddress : String
  toAddress : String
  value : String
  asset : String
  category : String
  hash : String
  rawContract : Option RawContract
  deriving DecidableEq

/-- The configuration surface the dispatcher reads: the bridge receiving
wallet and the registered tokens, in `Object.values(TOKENS)` order. -/
structure BridgeEnv where
  bridgeWallet : String
  tokens : List TokenConfig
  deriving DecidableEq

/-- The token-registry lookup: the first registered token whose source
address matches the activity's contract metadata, case-insensitively, for a
token-category activity. -/
def resolveToken (tokens : List TokenConfig) (a : ActivityLog) : Option TokenConfig :=
  tokens.find? fun token =>
    a.category == "token"
      && match a.rawContract with
         | none => false
         | some rc => lowerStr rc.address == lowerStr token.sourceAddress

/-- Backend `handleNativeTransfer`: convert the amount through the float pipeline
(`parseUnits`, `formatUnits`, a JavaScript number, `parseEther`), then send
a native transfer and wait for one confirmation; every throw is caught and
reported as failure. -/
def handleNativeTransfer (rpc : ActivityLog → Except Unit String)
    (a : ActivityLog) (sourceToken : TokenConfig) : Bool :=
  match codeTranslate a.value sourceToken.decimals with
  | none => false
  | some _targetAmount =>
    match rpc a with
    | .ok _ => true
    | .error _ => false

/-- Backend `handleTokenTransfer`: fails outright when no destination contract is
configured; otherwise `transfer(to, parseUnits(value, decimals))` with one
confirmation, every throw caught and reported as failure.  Token amounts
are not re-scaled. -/
def handleTokenTransfer (rpc : ActivityLog → Except Unit String)
    (a : ActivityLog) (sourceToken : TokenConfig) : Bool :=
  match sourceToken.targetAddress with
  | none => false
  | some _ =>
    match parseFixed a.value sourceToken.decimals with
    | none => false
    | some _ =>
      match rpc a with
      | .ok _ => true
      | .error _ => false

/-- The per-activity payout dispatch:
`sourceToken.isNative ? handleNativeTransfer : handleTokenTransfer`. -/
def executeTransfer (rpc : ActivityLog → Except Unit String)
    (sourceToken : TokenConfig) (a : ActivityLog) : Bool :=
  if sourceToken.isNative then handleNativeTransfer rpc a sourceToken
  else handleTokenTransfer rpc a sourceToken

/-- The dispatcher's mutable state: the `processedTxs` guard set, plus the
trace of payout attempts the run has dispatched (each attempt is one
invocation of a transfer handler). -/
structure DispatchState where
  processedTxs : List String
  submissions : List ActivityLog
  deriving DecidableEq

/-- One iteration of the webhook loop body: skip when the guard already
claims the hash, when the receiver is not the bridge wallet
(case-insensitively), or when no registered token matches; otherwise record
the hash in the guard, run the transfer, and delete the hash again when the
transfer reports failure. -/
def processActivity (env : BridgeEnv) (rpc : ActivityLog → Except Unit String)
    (s : DispatchState) (a : ActivityLog) : DispatchState :=
  if a.hash ∈ s.processedTxs then s
  else if lowerStr a.toAddress ≠ lowerStr env.bridgeWallet then s
  else
    match resolveToken env.tokens a with
    | none => s
    | some sourceToken =>
      let s1 : DispatchState :=
        { processedTxs := a.hash :: s.processedTxs
          submissions := s.submissions ++ [a] }
      let success := executeTransfer rpc sourceToken a
      if success then s1
      else { s1 with processedTxs := s1.processedTxs.erase a.hash }

/-- The whole webhook body: fold the loop over the activity batch, starting
from the given guard state. -/
def processBatchFrom (env : BridgeEnv) (rpc : ActivityLog → Except Unit String)
    (s : DispatchState) (activities : List ActivityLog) : DispatchState :=
  activities.foldl (processActivity env rpc) s

/-- A batch delivered to a fresh process (empty guard set). -/
def processBatch (env : BridgeEnv) (rpc : ActivityLog → Except Unit String)
    (activities : List ActivityLog) : DispatchState :=
  processBatchFrom env rpc ⟨[], []⟩ activities

/-- The webhook route handler: processes the batch and acknowledges with
the body `success: true` once the loop over the batch completes;
per-activity payout failures are absorbed by the handlers, and no
destination-chain confirmation is consulted (the backend contains no
confirmation monitor). -/
def webhookPost (env : BridgeEnv) (rpc : ActivityLog → Except Unit String)
    (activities : List ActivityLog) : DispatchState × Bool :=
  (processBatch env rpc activities, true)

/-! ## Backend webhook dispatcher (second variant)

The second webhook variant in src/backend/src/index.ts matches assets with a
sequential if/else on hardcoded addresses.  Its first branch detects WBTC by
the Arbitrum WBTC contract address; the branch that is meant to detect USDT
tests the very same condition again (the same `category === 'token'` check
against the same `WBTC_ARBITRUM` constant), so it sits in the `else if` of a
condition identical to its own. -/

/-- The Arbitrum WBTC address hardcoded by the second variant. -/
def WBTC_ARBITRUM : String := "0x2f2a2543B76A4166549F7aaB2e75Bef0aefC5B0f"

/-- The second variant's WBTC branch condition (its first asset branch):
`activity.category === 'token' &&
activity.rawContract?.address.toLowerCase() === WBTC_ARBITRUM.toLowerCase()`. -/
def v2CondWBTC (a : ActivityLog) : Bool :=
  a.category == "token"
    && match a.rawContract with
       | none => false
       | some rc => lowerStr rc.address == lowerStr WBTC_ARBITRUM

/-- The second variant's USDT branch condition, exactly as written at its
`else if`: the same category test against the same `WBTC_ARBITRUM`
address. -/
def v2CondUSDT (a : ActivityLog) : Bool :=
  a.category == "token"
    && match a.rawContract with
       | none => false
       | some rc => lowerStr rc.address == lowerStr WBTC_ARBITRUM

/-- Which path of the second variant's loop body an activity takes. -/
inductive V2Branch where
  | skippedProcessed
  | skippedWallet
  | wbtc
  | usdt
  | skippedNoMatch
  deriving DecidableEq

/-- The second variant's per-activity control flow: guard check, bridge
wallet check, then the WBTC branch, the (intended) USDT branch, and the
fallthrough log. -/
def v2Branch (bridgeWallet : String) (processedTxs : List String)
    (a : ActivityLog) : V2Branch :=
  if a.hash ∈ processedTxs then .skippedProcessed
  else if lowerStr a.toAddress ≠ lowerStr bridgeWallet then .skippedWallet
  else if v2CondWBTC a then .wbtc
  else if v2CondUSDT a then .usdt
  else .skippedNoMatch

/-! ## Frontend confirmation monitor (Bridge.tsx)

`monitorBitlayerTransaction` captures an initial balance and block height,
then polls on a fixed interval.  Each tick aborts with a timeout once the
attempt counter reaches `maxAttempts`, increments the counter, reads the
current head, and scans for the payout: in native mode it first compares the
recipient balance against the baseline and, when it grew, walks the blocks
from `lastCheckedBlock + 1` to the head (fetched five at a time, with the
transactions of each block fetched three at a time) looking for a
bridge-to-wallet transfer of positive value in a block strictly newer than
the Arbitrum source event, whose value equals the float-converted expected
amount; in token mode it queries the destination token's Transfer logs over
`[max(lastCheckedBlock + 1, head - 1000), head]` and filters them by exact
amount, parties, and the same strict timestamp gate.  On a match the
interval stops with the destination hash; otherwise the block cursor
advances to the head.  A thrown tick is caught, leaving the cursor where it
was.  RPC reads are the tick's observation data; `Except` carries a throw
(for example the float pipeline rejecting the amount, or a null
`getTransaction` answer dereferenced for its block number). -/

/-- Frontend token descriptor (named `TokenConfig` in Bridge.tsx). -/
structure FTokenConfig where
  symbol : String
  name : String
  arbitrumAddress : String
  bitlayerAddress : Option String
  decimals : ℕ
  isNative : Bool
  deriving DecidableEq

/-- A BitLayer transaction as the monitor reads it (`tx.from`, `tx.to`,
`tx.value`, `tx.hash`). -/
structure BTx where
  hash : String
  fromAddr : String
  toAddr : String
  value : ℤ
  deriving DecidableEq

/-- A BitLayer block: timestamp and transactions. -/
structure BBlock where
  timestamp : ℤ
  transactions : List BTx
  deriving DecidableEq

/-- A `Transfer(from, to, value)` log entry with its transaction hash. -/
structure TransferEvent where
  evFrom : String
  evTo : String
  value : ℤ
  transactionHash : String
  deriving DecidableEq

/-- Frontend `TransactionMonitorConfig` plus the module-level `BRIDGE_WALLET`. -/
structure MonitorConfig where
  fromAmount : String
  token : FTokenConfig
  arbitrumTxHash : String
  arbitrumTimestamp : ℤ
  walletAddress : String
  bridgeWallet : String
  deriving DecidableEq

/-- The candidate predicate of the native scan's `txs.find`: recipient is
the user's wallet, sender is the bridge wallet (case-insensitive), positive
value, and the containing block is strictly newer than the Arbitrum
event. -/
def nativeMatchPred (cfg : MonitorConfig) (blockTs : ℤ) (tx : BTx) : Bool :=
  lowerStr tx.toAddr == lowerStr cfg.walletAddress
    && lowerStr tx.fromAddr == lowerStr cfg.bridgeWallet
    && decide (0 < tx.value)
    && decide (cfg.arbitrumTimestamp < blockTs)

/-- Transactions of a block in the batches of three the native scan fetches
and searches (`batchSize = 3`). -/
def chunks3 : List BTx → List (List BTx)
  | [] => []
  | [a] => [[a]]
  | [a, b] => [[a, b]]
  | a :: b :: c :: rest => [a, b, c] :: chunks3 rest

/-- The integer heights from `lo` to `hi` inclusive. -/
def intRange (lo hi : ℤ) : List ℤ :=
  (List.range (hi + 1 - lo).toNat).map (fun (k : ℕ) => lo + (k : ℤ))

/-- The native scan over one block's transaction batches: `find` a
candidate in the batch; on a candidate, compare its value against the
float-converted expected amount (a throwing conversion aborts the tick) and
return it on equality, otherwise move to the next batch. -/
def scanTxBatches (cfg : MonitorConfig) (blockTs : ℤ) :
    List (List BTx) → Except Unit (Option BTx)
  | [] => .ok none
  | batch :: rest =>
    match batch.find? (nativeMatchPred cfg blockTs) with
    | none => scanTxBatches cfg blockTs rest
    | some matchingTx =>
      match codeTranslate cfg.fromAmount cfg.token.decimals with
      | none => .error ()
      | some expectedAmount =>
        if matchingTx.value = expectedAmount then .ok (some matchingTx)
        else scanTxBatches cfg blockTs rest

/-- The native scan over the block heights, in ascending order (the code
fetches them five at a time, which only bounds concurrent RPC calls); a
null or empty block is skipped. -/
def scanBlocks (cfg : MonitorConfig) (getBlock : ℤ → Option BBlock) :
    List ℤ → Except Unit (Option BTx)
  | [] => .ok none
  | blockNum :: rest =>
    match getBlock blockNum with
    | none => scanBlocks cfg getBlock rest
    | some block =>
      if block.transactions.isEmpty then scanBlocks cfg getBlock rest
      else
        match scanTxBatches cfg block.timestamp (chunks3 block.transactions) with
        | .error e => .error e
        | .ok (some tx) => .ok (some tx)
        | .ok none => scanBlocks cfg getBlock rest

/-- Frontend `monitorNativeTransfer`: nothing to do on a zero (JavaScript-falsy)
head or cursor, else walk the blocks from `lastCheckedBlock + 1` to
`currentBlock`. -/
def monitorNativeTransfer (cfg : MonitorConfig) (getBlock : ℤ → Option BBlock)
    (currentBlock lastCheckedBlock : ℤ) : Except Unit (Option BTx) :=
  if currentBlock = 0 ∨ lastCheckedBlock = 0 then .ok none
  else scanBlocks cfg getBlock (intRange (lastCheckedBlock + 1) currentBlock)

/-- The token scan over the returned Transfer events: fetch each event's
transaction for its block number and that block for its timestamp (a null
answer is dereferenced, throwing), then test exact amount, recipient,
sender, and the strict timestamp gate. -/
def scanEvents (cfg : MonitorConfig) (getTransaction : String → Option ℤ)
    (getBlock : ℤ → Option BBlock) : List TransferEvent → Except Unit (Option TransferEvent)
  | [] => .ok none
  | event :: rest =>
    match getTransaction event.transactionHash with
    | none => .error ()
    | some blockNumber =>
      match getBlock blockNumber with
      | none => .error ()
      | some block =>
        match parseFixed cfg.fromAmount cfg.token.decimals with
        | none => .error ()
        | some expected =>
          if event.value = expected
              ∧ lowerStr event.evTo = lowerStr cfg.walletAddress
              ∧ lowerStr event.evFrom = lowerStr cfg.bridgeWallet
              ∧ cfg.arbitrumTimestamp < block.timestamp
          then .ok (some event)
          else scanEvents cfg getTransaction getBlock rest

/-- Frontend `monitorTokenTransfer`: nothing to do without a destination token
contract; else query the Transfer logs over
`[max(lastCheckedBlock + 1, currentBlock - 1000), currentBlock]` and filter
them. -/
def monitorTokenTransfer (cfg : MonitorConfig)
    (queryFilter : ℤ → ℤ → List TransferEvent)
    (getTransaction : String → Option ℤ) (getBlock : ℤ → Option BBlock)
    (currentBlock lastCheckedBlock : ℤ) : Except Unit (Option TransferEvent) :=
  match cfg.token.bitlayerAddress with
  | none => .ok none
  | some _ =>
    let fromBlock := max (lastCheckedBlock + 1) (currentBlock - 1000)
    scanEvents cfg getTransaction getBlock (queryFilter fromBlock currentBlock)

/-- The monitor's phase: polling, stopped on a found destination
transaction, or stopped on an exhausted attempt budget. -/
inductive MonPhase where
  | monitoring
  | confirmed (h : String)
  | timedOut
  deriving DecidableEq

/-- The state a monitor invocation carries across interval ticks. -/
structure MonState where
  attempts : ℕ
  lastCheckedBlock : ℤ
  phase : MonPhase
  deriving DecidableEq

/-- The state at `startMonitoring`: zero attempts, the block height read at
setup, polling. -/
def initialMonState (lastCheckedBlock : ℤ) : MonState :=
  ⟨0, lastCheckedBlock, .monitoring⟩

/-- What the destination RPC answers during one tick. -/
structure TickObs where
  head : ℤ
  balance : ℤ
  getBlock : ℤ → Option BBlock
  queryFilter : ℤ → ℤ → List TransferEvent
  getTransaction : String → Option ℤ

/-- Bookkeeping of one tick: the block heights whose transactions or logs
the tick requested for candidate inspection, whether the tick threw, and
whether it found the match. -/
structure TickLog where
  scanned : List ℤ
  erred : Bool
  matched : Bool
  deriving DecidableEq

/-- The heights the native scan requests (none on a falsy head or cursor,
or when the balance gate keeps the tick from scanning). -/
def nativeScanHeights (currentBlock lastCheckedBlock : ℤ) : List ℤ :=
  if currentBlock = 0 ∨ lastCheckedBlock = 0 then []
  else intRange (lastCheckedBlock + 1) currentBlock

/-- The heights the token scan queries logs over. -/
def tokenScanHeights (cfg : MonitorConfig) (currentBlock lastCheckedBlock : ℤ) : List ℤ :=
  match cfg.token.bitlayerAddress with
  | none => []
  | some _ => intRange (max (lastCheckedBlock + 1) (currentBlock - 1000)) currentBlock

/-- One interval tick of `monitorBitlayerTransaction`: nothing once the
interval is cleared; the timeout transition once the attempt counter has
reached `maxAttempts`; otherwise count the attempt, read the head, scan
(native mode only when the recipient balance grew past the baseline), and
either stop on the match, keep state on a throw (the catch block), or
advance the block cursor to the head. -/
def tick (cfg : MonitorConfig) (initialBalance : ℤ) (maxAttempts : ℕ)
    (s : MonState) (obs : TickObs) : MonState × TickLog :=
  match s.phase with
  | .confirmed _ => (s, ⟨[], false, false⟩)
  | .timedOut => (s, ⟨[], false, false⟩)
  | .monitoring =>
    if maxAttempts ≤ s.attempts then
      ({ s with phase := .timedOut }, ⟨[], false, false⟩)
    else
      let attempts' := s.attempts + 1
      let currentBlock := obs.head
      let scan : Except Unit (Option String) × List ℤ :=
        if cfg.token.isNative then
          if initialBalance < obs.balance then
            ((monitorNativeTransfer cfg obs.getBlock currentBlock s.lastCheckedBlock).map
                (fun r => r.map (fun tx => tx.hash)),
             nativeScanHeights currentBlock s.lastCheckedBlock)
          else (.ok none, [])
        else
          ((monitorTokenTransfer cfg obs.queryFilter obs.getTransaction obs.getBlock
              currentBlock s.lastCheckedBlock).map
              (fun r => r.map (fun ev => ev.transactionHash)),
           tokenScanHeights cfg currentBlock s.lastCheckedBlock)
      match scan.1 with
      | .error _ => ({ s with attempts := attempts' }, ⟨scan.2, true, false⟩)
      | .ok (some h) =>
        ({ s with attempts := attempts', phase := .confirmed h }, ⟨scan.2, false, true⟩)
      | .ok none =>
        ({ s with attempts := attempts', lastCheckedBlock := currentBlock },
         ⟨scan.2, false, false⟩)

/-- A run of the monitor: fold the tick over the observation sequence,
collecting the per-tick logs. -/
def runFrom (cfg : MonitorConfig) (initialBalance : ℤ) (maxAttempts : ℕ) :
    MonState → List TickObs → MonState × List TickLog
  | s, [] => (s, [])
  | s, o :: os =>
    let p := tick cfg initialBalance maxAttempts s o
    let r := runFrom cfg initialBalance maxAttempts p.1 os
    (r.1, p.2 :: r.2)

/-- The states after each tick of a run. -/
def traceFrom (cfg : MonitorConfig) (initialBalance : ℤ) (maxAttempts : ℕ) :
    MonState → List TickObs → List MonState
  | _, [] => []
  | s, o :: os =>
    let s' := (tick cfg initialBalance maxAttempts s o).1
    s' :: traceFrom cfg initialBalance maxAttempts s' os

/-! ## Concrete instances (used by witnesses and counterexamples) -/

/-- The WBTC entry of the backend `TOKENS` registry: 8 source decimals, no
destination contract, paid out as native BTC. -/
def wbtcToken : TokenConfig :=
  ⟨"WBTC", "Wrapped Bitcoin", "0x2f2a2543B76A4166549F7aaB2e75Bef0aefC5B0f", none, 8, true⟩

/-- The USDT entry of the backend `TOKENS` registry: 6 decimals, paid out by
a contract transfer on BitLayer. -/
def usdtToken : TokenConfig :=
  ⟨"USDT", "Tether USD", "0xFd086bC7CD5C481DCC9C85ebE478A1C0b69FCbb9",
    some "0xfe9f969faf8ad72a83b761138bf25de87eff9dd2", 6, false⟩

/-- The deployed configuration: the bridge receiving wallet and the token
registry in `Object.values(TOKENS)` order. -/
def exEnv : BridgeEnv :=
  ⟨"0x9852513815fd49AdE1C6A6A98851617Ff4a2e8a9", [wbtcToken, usdtToken]⟩

/-- A WBTC deposit notification addressed to the bridge wallet (in a
different letter case, exercising the case-insensitive comparisons). -/
def exDeposit : ActivityLog :=
  { fromAddress := "0xA11CE00000000000000000000000000000000001"
    toAddress := "0x9852513815FD49ADE1C6A6A98851617FF4A2E8A9"
    value := "0.005"
    asset := "WBTC"
    category := "token"
    hash := "0xsrctx1"
    rawContract := some ⟨"0x2F2A2543B76A4166549F7AAB2E75BEF0AEFC5B0F", 8, "500000"⟩ }

/-- An RPC oracle whose submissions all land. -/
def rpcOk : ActivityLog → Except Unit String := fun _ => .ok "0xdesthash"

/-- An RPC oracle whose submissions all fail (throw or revert). -/
def rpcFail : ActivityLog → Except Unit String := fun _ => .error ()

/-- The frontend WBTC descriptor (native on BitLayer). -/
def exFWbtc : FTokenConfig :=
  ⟨"WBTC", "Wrapped Bitcoin", "0x2f2a2543B76A4166549F7aaB2e75Bef0aefC5B0f", none, 8, true⟩

/-- A frontend USDT-like descriptor with no destination contract
configured (token mode with nothing to query). -/
def exFNoTarget : FTokenConfig :=
  ⟨"USDT", "Tether USD", "0xFd086bC7CD5C481DCC9C85ebE478A1C0b69FCbb9", none, 6, false⟩

/-- A native-mode monitor configuration for a 0.005 WBTC payout whose
source event is at timestamp 1000. -/
def exMonCfg : MonitorConfig :=
  { fromAmount := "0.005"
    token := exFWbtc
    arbitrumTxHash := "0xsrctx1"
    arbitrumTimestamp := 1000
    walletAddress := "0xA11CE00000000000000000000000000000000001"
    bridgeWallet := "0x9852513815fd49AdE1C6A6A98851617Ff4a2e8a9" }

/-- A token-mode monitor configuration built on `exFNoTarget`. -/
def exTokMonCfg : MonitorConfig :=
  { fromAmount := "0.005"
    token := exFNoTarget
    arbitrumTxHash := "0xsrctx1"
    arbitrumTimestamp := 1000
    walletAddress := "0xA11CE00000000000000000000000000000000001"
    bridgeWallet := "0x9852513815fd49AdE1C6A6A98851617Ff4a2e8a9" }

/-- The matching BitLayer payout transaction: bridge wallet to the user's
wallet (lower-cased on chain), 0.005 in 18 decimals. -/
def exPayTx : BTx :=
  ⟨"0xdesthash", "0x9852513815fd49ade1c6a6a98851617ff4a2e8a9",
    "0xa11ce00000000000000000000000000000000001", 5000000000000000⟩

/-- The BitLayer block holding the payout, strictly after the source
event. -/
def exBlock : BBlock := ⟨1500, [exPayTx]⟩

/-- A destination chain where only height 5 holds a (non-empty) block. -/
def exGetBlock : ℤ → Option BBlock := fun n => if n = 5 then some exBlock else none

/-- A tick whose balance has not moved past the baseline of 0. -/
def exObsIdle : TickObs := ⟨5, 0, exGetBlock, fun _ _ => [], fun _ => none⟩

/-- A tick at head 7 whose balance grew, over an empty span of blocks. -/
def exObsGrown : TickObs := ⟨7, 1, fun _ => none, fun _ _ => [], fun _ => none⟩

/-- A content-free tick observation for token mode. -/
def exObsTok : TickObs := ⟨1, 0, fun _ => none, fun _ _ => [], fun _ => none⟩

/-- An idle native tick whose head observation is 10. -/
def exObsHead10 : TickObs := ⟨10, 0, fun _ => none, fun _ _ => [], fun _ => none⟩

/-- An idle native tick whose head observation is 8 — a public RPC answer
behind a load balancer can fall behind the previously observed head. -/
def exObsHead8 : TickObs := ⟨8, 0, fun _ => none, fun _ _ => [], fun _ => none⟩

/-- The frontend USDT descriptor with its BitLayer contract configured. -/
def exFUsdt : FTokenConfig :=
  ⟨"USDT", "Tether USD", "0xFd086bC7CD5C481DCC9C85ebE478A1C0b69FCbb9",
    some "0xfe9f969faf8ad72a83b761138bf25de87eff9dd2", 6, false⟩

/-- A token-mode monitor configuration built on `exFUsdt`. -/
def exUsdtMonCfg : MonitorConfig :=
  { fromAmount := "1.0"
    token := exFUsdt
    arbitrumTxHash := "0xsrctx1"
    arbitrumTimestamp := 1000
    walletAddress := "0xA11CE00000000000000000000000000000000001"
    bridgeWallet := "0x9852513815fd49AdE1C6A6A98851617Ff4a2e8a9" }

/-- A Transfer event whose transaction lookup answers null — the monitor
dereferences the null answer for its block number and throws. -/
def exEvOrphan : TransferEvent :=
  ⟨"0x9852513815fd49ade1c6a6a98851617ff4a2e8a9",
    "0xa11ce00000000000000000000000000000000001", 1000000, "0xorphantx"⟩

/-- A token tick at head 5 whose log query returns the orphan event, making
the scan throw after the heights were already requested. -/
def exObsErr : TickObs := ⟨5, 0, fun _ => none, fun _ _ => [exEvOrphan], fun _ => none⟩

/-- A notification addressed to a wallet that is not the bridge wallet. -/
def exWrongWallet : ActivityLog :=
  { exDeposit with toAddress := "0x0000000000000000000000000000000000000bad" }

/-! ## Theorems -/

/-- Claim C1: the native-mode 8-to-18 amount translation is NOT the exact
integer rescaling by 10^10 that the spec mandates, because the code routes
the amount through a JavaScript number.  At the failing input 0.00000001
(one satoshi) the float's `toString` is the scientific notation 1e-8, which
`parseEther` rejects, so the conversion throws and the payout attempt fails
— while the spec's integer translator yields exactly
0.000000010000000000.  The scenario input 0.00500000 happens to convert
exactly, as the spec's scenario states. -/
theorem nativeTranslation_float_pipeline_bug :
    codeTranslate "0.00500000" 8 = some 5000000000000000
      ∧ codeTranslate "0.00000001" 8 = none
      ∧ jsFloatRoundTrip (formatFixed 1 8) = some "1e-8"
      ∧ translateAmount "0.00000001" 8 18 = some "0.000000010000000000"
      ∧ translateAmount "0.00500000" 8 18 = some "0.005000000000000000" := by
  refine ⟨by decide, by decide, by decide, by decide, by decide⟩

/-- Claim C8: the webhook handler acknowledges `success: true` for every
batch whose per-event processing completes, whatever the RPC outcomes of
the individual payouts are (the transfer handlers absorb their own
failures), and the acknowledgment consults no destination-chain
confirmation (the backend contains no confirmation monitor — the response
is a function of the dispatch loop alone). -/
theorem webhook_ack_success (env : BridgeEnv) (rpc : ActivityLog → Except Unit String)
    (activities : List ActivityLog) : (webhookPost env rpc activities).2 = true := rfl

/-- Claim C9: in the second webhook variant the USDT branch condition is
character-for-character the WBTC branch condition (both test the Arbitrum
WBTC address), so the `else if` guarding the USDT payout path can never be
reached: the branch is dead code. -/
theorem v2_usdt_branch_unreachable :
    (∀ a, v2CondUSDT a = v2CondWBTC a)
      ∧ ∀ (bridgeWallet : String) (processedTxs : List String) (a : ActivityLog),
          v2Branch bridgeWallet processedTxs a ≠ V2Branch.usdt := by
  refine ⟨fun a => rfl, fun w p a => ?_⟩
  unfold v2Branch
  split_ifs with h1 h2 h3 h4
  · simp
  · simp
  · simp
  · exact absurd h4 h3
  · simp

/-- Claim C10: an activity that the webhook filters skip — receiver not the
bridge wallet (case-insensitively), or contract metadata resolving to no
registered token — leaves the dispatcher state, and in particular the
`processedTxs` guard set, exactly as it was: only activities passing both
filters mutate the guard. -/
theorem skipped_activity_frame (env : BridgeEnv) (rpc : ActivityLog → Except Unit String)
    (s : DispatchState) (a : ActivityLog)
    (h : lowerStr a.toAddress ≠ lowerStr env.bridgeWallet
          ∨ resolveToken env.tokens a = none) :
    processActivity env rpc s a = s := by
  unfold processActivity
  split_ifs with h1 h2
  · rfl
  · rfl
  · rcases h with h | h
    · exact absurd h h2
    · rw [h]

/-- Witness for claim C10 at a concrete mismatched receiver. -/
theorem skipped_activity_frame_witness :
    processActivity exEnv rpcOk ⟨[], []⟩ exWrongWallet = ⟨[], []⟩ :=
  skipped_activity_frame exEnv rpcOk ⟨[], []⟩ exWrongWallet (Or.inl (by decide))

/-- Counterexample to claim C2 as stated: a batch with two copies of the
same WBTC notification, delivered while the destination RPC is failing,
produces TWO payout submissions, not one — the first failure releases the
guard claim, so the duplicate is not skipped. -/
theorem webhook_duplicate_double_submission :
    (processBatch exEnv rpcFail [exDeposit, exDeposit]).submissions.length = 2
      ∧ ¬ (processBatch exEnv rpcFail [exDeposit, exDeposit]).submissions.length = 1 := by
  refine ⟨by decide, by decide⟩

/-- Claim C3: for an accepted notification (guard not yet claiming it, both
filters passing), a failed payout — submission throw, revert, or a token
payout with no destination contract configured, all of which make the
transfer handler report failure — releases the guard claim (the set returns
to exactly what it was), so redelivering the identical notification
dispatches a payout attempt again; a successful payout retains the
claim. -/
theorem guard_release_on_failure (env : BridgeEnv) (rpc : ActivityLog → Except Unit String)
    (s : DispatchState) (a : ActivityLog) (sourceToken : TokenConfig)
    (hguard : a.hash ∉ s.processedTxs)
    (hwallet : lowerStr a.toAddress = lowerStr env.bridgeWallet)
    (hres : resolveToken env.tokens a = some sourceToken) :
    (executeTransfer rpc sourceToken a = false →
        (processActivity env rpc s a).processedTxs = s.processedTxs
          ∧ (processActivity env rpc (processActivity env rpc s a) a).submissions.length
              = (processActivity env rpc s a).submissions.length + 1)
      ∧ (executeTransfer rpc sourceToken a = true →
          a.hash ∈ (processActivity env rpc s a).processedTxs) := by
  have hw : ¬ lowerStr a.toAddress ≠ lowerStr env.bridgeWallet := not_not_intro hwallet
  constructor
  · intro hfail
    have hstep : processActivity env rpc s a
        = { processedTxs := s.processedTxs, submissions := s.submissions ++ [a] } := by
      unfold processActivity
      rw [if_neg hguard, if_neg hw, hres]
      simp only [hfail, Bool.false_eq_true, if_false]
      simp [List.erase_cons_head]
    refine ⟨by rw [hstep], ?_⟩
    rw [hstep]
    unfold processActivity
    rw [if_neg hguard, if_neg hw, hres]
    rcases hsucc : executeTransfer rpc sourceToken a with _ | _ <;> simp [hsucc]
  · intro hsucc
    unfold processActivity
    rw [if_neg hguard, if_neg hw, hres]
    simp [hsucc]

/-- Witness for claim C3: the concrete WBTC deposit against a failing RPC,
from an empty guard. -/
theorem guard_release_on_failure_witness :
    (executeTransfer rpcFail wbtcToken exDeposit = false →
        (processActivity exEnv rpcFail ⟨[], []⟩ exDeposit).processedTxs = ([] : List String)
          ∧ (processActivity exEnv rpcFail
                (processActivity exEnv rpcFail ⟨[], []⟩ exDeposit) exDeposit).submissions.length
              = (processActivity exEnv rpcFail ⟨[], []⟩ exDeposit).submissions.length + 1)
      ∧ (executeTransfer rpcFail wbtcToken exDeposit = true →
          exDeposit.hash ∈ (processActivity exEnv rpcFail ⟨[], []⟩ exDeposit).processedTxs) :=
  guard_release_on_failure exEnv rpcFail ⟨[], []⟩ exDeposit wbtcToken
    (by decide) (by decide) (by decide)

/-- One webhook loop iteration with a succeeding executor keeps the recorded
payout hashes duplicate-free and extensionally equal to the guard set, only
ever extends them, and records the hash of an accepted activity. -/
theorem processActivity_inv (env : BridgeEnv) (rpc : ActivityLog → Except Unit String)
    (s : DispatchState) (b : ActivityLog)
    (hsucc : ∀ tok, resolveToken env.tokens b = some tok → executeTransfer rpc tok b = true)
    (hnd : (s.submissions.map (·.hash)).Nodup)
    (hiff : ∀ h, h ∈ s.processedTxs ↔ h ∈ s.submissions.map (·.hash)) :
    ((processActivity env rpc s b).submissions.map (·.hash)).Nodup
      ∧ (∀ h, h ∈ (processActivity env rpc s b).processedTxs
            ↔ h ∈ (processActivity env rpc s b).submissions.map (·.hash))
      ∧ (∀ h, h ∈ s.submissions.map (·.hash)
            → h ∈ (processActivity env rpc s b).submissions.map (·.hash))
      ∧ (lowerStr b.toAddress = lowerStr env.bridgeWallet
          → (∃ tok, resolveToken env.tokens b = some tok)
          → b.hash ∈ (processActivity env rpc s b).submissions.map (·.hash)) := by
  unfold processActivity
  split_ifs with h1 h2
  · exact ⟨hnd, hiff, fun h hh => hh, fun _ _ => (hiff b.hash).mp h1⟩
  · exact ⟨hnd, hiff, fun h hh => hh, fun hw _ => absurd hw h2⟩
  · rcases hrt : resolveToken env.tokens b with _ | tok
    · exact ⟨hnd, hiff, fun h hh => hh, fun _ htok => by
        rcases htok with ⟨tok, htok⟩
        exact absurd htok (by simp)⟩
    · have hx : executeTransfer rpc tok b = true := hsucc tok hrt
      simp only [hx, if_true]
      have hbn : b.hash ∉ s.submissions.map (·.hash) := fun hmem => h1 ((hiff b.hash).mpr hmem)
      have hmap : ((s.submissions ++ [b]).map (·.hash))
          = s.submissions.map (·.hash) ++ [b.hash] := by simp
      refine ⟨?_, ?_, ?_, ?_⟩
      · rw [hmap, ← List.concat_eq_append]
        exact List.Nodup.concat hbn hnd
      · intro h
        rw [hmap]
        constructor
        · intro hh
          rcases List.mem_cons.mp hh with rfl | hh
          · exact List.mem_append_right _ (by simp)
          · exact List.mem_append_left _ ((hiff h).mp hh)
        · intro hh
          rcases List.mem_append.mp hh with hh | hh
          · exact List.mem_cons_of_mem _ ((hiff h).mpr hh)
          · simp only [List.mem_singleton] at hh
            exact hh ▸ List.mem_cons_self _ _
      · intro h hh
        rw [hmap]
        exact List.mem_append_left _ hh
      · intro _ _
        rw [hmap]
        exact List.mem_append_right _ (by simp)

/-- The fold of the webhook loop preserves the dispatch invariant: the
recorded payout hashes stay duplicate-free and in step with the guard set,
they only grow, and every activity of the batch that passes the filters
ends up among them. -/
theorem processBatchFrom_inv (env : BridgeEnv) (rpc : ActivityLog → Except Unit String)
    (batch : List ActivityLog) :
    ∀ (s : DispatchState),
      (∀ b ∈ batch, ∀ tok, resolveToken env.tokens b = some tok
          → executeTransfer rpc tok b = true)
      → (s.submissions.map (·.hash)).Nodup
      → (∀ h, h ∈ s.processedTxs ↔ h ∈ s.submissions.map (·.hash))
      → ((processBatchFrom env rpc s batch).submissions.map (·.hash)).Nodup
        ∧ (∀ h, h ∈ s.submissions.map (·.hash)
              → h ∈ (processBatchFrom env rpc s batch).submissions.map (·.hash))
        ∧ (∀ b ∈ batch,
            lowerStr b.toAddress = lowerStr env.bridgeWallet
            → (∃ tok, resolveToken env.tokens b = some tok)
            → b.hash ∈ (processBatchFrom env rpc s batch).submissions.map (·.hash)) := by
  induction batch with
  | nil => exact fun s _ hnd hiff => ⟨hnd, fun h hh => hh, fun b hb => absurd hb (by simp)⟩
  | cons b rest ih =>
    intro s hsucc hnd hiff
    have hstep := processActivity_inv env rpc s b
      (hsucc b (List.mem_cons_self b rest)) hnd hiff
    have hfold := ih (processActivity env rpc s b)
      (fun c hc tok => hsucc c (List.mem_cons_of_mem b hc) tok) hstep.1 hstep.2.1
    refine ⟨hfold.1, ?_, ?_⟩
    · intro h hh
      exact hfold.2.1 h (hstep.2.2.1 h hh)
    · intro c hc hw htok
      rcases List.mem_cons.mp hc with rfl | hc
      · exact hfold.2.1 c.hash (hstep.2.2.2 hw htok)
      · exact hfold.2.2 c hc hw htok

/-- Claim C2, amended: when the payout submissions of a batch succeed, a
batch containing duplicate notifications of one source transaction yields
exactly one payout submission for that transaction identifier — the first
occurrence records the identifier in the guard before its payout, every
later occurrence is skipped by the guard check (as stated the claim fails:
a FAILED first payout releases the claim and the duplicate is resubmitted,
see the counterexample). -/
theorem webhook_single_submission (env : BridgeEnv) (rpc : ActivityLog → Except Unit String)
    (batch : List ActivityLog) (a : ActivityLog)
    (hsucc : ∀ b ∈ batch, ∀ tok, resolveToken env.tokens b = some tok
        → executeTransfer rpc tok b = true)
    (ha : a ∈ batch)
    (hwallet : lowerStr a.toAddress = lowerStr env.bridgeWallet)
    (htok : ∃ tok, resolveToken env.tokens a = some tok) :
    ((processBatch env rpc batch).submissions.map (·.hash)).count a.hash = 1 := by
  have h := processBatchFrom_inv env rpc batch ⟨[], []⟩ hsucc (by simp) (by simp)
  exact List.count_eq_one_of_mem h.1 (h.2.2 a ha hwallet htok)

/-- Witness for claim C2 (amended): the duplicate WBTC deposit against a
healthy RPC is paid out exactly once. -/
theorem webhook_single_submission_witness :
    ((processBatch exEnv rpcOk [exDeposit, exDeposit]).submissions.map (·.hash)).count
        exDeposit.hash = 1 :=
  webhook_single_submission exEnv rpcOk [exDeposit, exDeposit] exDeposit
    (by decide) (by decide) (by decide) ⟨wbtcToken, by decide⟩

/-- Every member of a batch of three is a member of the batched list. -/
theorem mem_of_mem_chunks3 : ∀ {l c : List BTx}, c ∈ chunks3 l → ∀ {x : BTx}, x ∈ c → x ∈ l := by
  intro l
  induction l using chunks3.induct with
  | case1 => intro c hc; simp [chunks3] at hc
  | case2 a =>
    intro c hc x hx
    simp only [chunks3, List.mem_singleton] at hc
    exact hc ▸ hx
  | case3 a b =>
    intro c hc x hx
    simp only [chunks3, List.mem_singleton] at hc
    exact hc ▸ hx
  | case4 a b d rest ih =>
    intro c hc x hx
    rw [chunks3] at hc
    rcases List.mem_cons.mp hc with rfl | hc
    · simp only [List.mem_cons] at hx ⊢
      tauto
    · simp only [List.mem_cons]
      exact Or.inr (Or.inr (Or.inr (ih hc hx)))

/-- A transaction the native batch scan returns satisfies the candidate
predicate and lies in one of the batches. -/
theorem scanTxBatches_some (cfg : MonitorConfig) (blockTs : ℤ) :
    ∀ (bs : List (List BTx)) (tx : BTx),
      scanTxBatches cfg blockTs bs = .ok (some tx)
      → ∃ c ∈ bs, tx ∈ c ∧ nativeMatchPred cfg blockTs tx = true := by
  intro bs
  induction bs with
  | nil => intro tx h; exact absurd h (by simp [scanTxBatches])
  | cons batch rest ih =>
    intro tx h
    rw [scanTxBatches] at h
    rcases hf : batch.find? (nativeMatchPred cfg blockTs) with _ | m
    · simp only [hf] at h
      rcases ih tx h with ⟨c, hc, hm, hp⟩
      exact ⟨c, List.mem_cons_of_mem _ hc, hm, hp⟩
    · simp only [hf] at h
      rcases hct : codeTranslate cfg.fromAmount cfg.token.decimals with _ | expected
      · simp only [hct] at h
        exact Except.noConfusion h
      · simp only [hct] at h
        by_cases hv : m.value = expected
        · rw [if_pos hv] at h
          simp only [Except.ok.injEq, Option.some.injEq] at h
          subst h
          exact ⟨batch, List.mem_cons_self _ _, List.mem_of_find?_eq_some hf,
            List.find?_some hf⟩
        · rw [if_neg hv] at h
          rcases ih tx h with ⟨c, hc, hm, hp⟩
          exact ⟨c, List.mem_cons_of_mem _ hc, hm, hp⟩

/-- A transaction the native block walk returns lies, satisfying the
candidate predicate, in a fetched block at one of the walked heights. -/
theorem scanBlocks_some (cfg : MonitorConfig) (getBlock : ℤ → Option BBlock) :
    ∀ (bns : List ℤ) (tx : BTx),
      scanBlocks cfg getBlock bns = .ok (some tx)
      → ∃ bn ∈ bns, ∃ block, getBlock bn = some block ∧ tx ∈ block.transactions
          ∧ nativeMatchPred cfg block.timestamp tx = true := by
  intro bns
  induction bns with
  | nil => intro tx h; exact absurd h (by simp [scanBlocks])
  | cons bn rest ih =>
    intro tx h
    rw [scanBlocks] at h
    rcases hgb : getBlock bn with _ | block
    · simp only [hgb] at h
      rcases ih tx h with ⟨b, hb, r⟩
      exact ⟨b, List.mem_cons_of_mem _ hb, r⟩
    · simp only [hgb] at h
      by_cases hemp : block.transactions.isEmpty = true
      · rw [if_pos hemp] at h
        rcases ih tx h with ⟨b, hb, r⟩
        exact ⟨b, List.mem_cons_of_mem _ hb, r⟩
      · rw [if_neg hemp] at h
        rcases hsb : scanTxBatches cfg block.timestamp (chunks3 block.transactions)
            with e | r
        · simp only [hsb] at h
          exact Except.noConfusion h
        · simp only [hsb] at h
          rcases r with _ | tx'
          · rcases ih tx h with ⟨b, hb, rr⟩
            exact ⟨b, List.mem_cons_of_mem _ hb, rr⟩
          · simp only [Except.ok.injEq, Option.some.injEq] at h
            subst h
            rcases scanTxBatches_some cfg block.timestamp _ _ hsb with ⟨c, hc, hm, hp⟩
            exact ⟨bn, List.mem_cons_self _ _, block, hgb,
              mem_of_mem_chunks3 hc hm, hp⟩

/-- A Transfer event the token scan returns sits in a destination block
strictly newer than the source event. -/
theorem scanEvents_some (cfg : MonitorConfig) (getTransaction : String → Option ℤ)
    (getBlock : ℤ → Option BBlock) :
    ∀ (evs : List TransferEvent) (event : TransferEvent),
      scanEvents cfg getTransaction getBlock evs = .ok (some event)
      → ∃ blockNumber block, getTransaction event.transactionHash = some blockNumber
          ∧ getBlock blockNumber = some block
          ∧ cfg.arbitrumTimestamp < block.timestamp := by
  intro evs
  induction evs with
  | nil => intro ev h; exact absurd h (by simp [scanEvents])
  | cons ev rest ih =>
    intro event h
    rw [scanEvents] at h
    rcases hgt : getTransaction ev.transactionHash with _ | bn
    · simp only [hgt] at h
      exact Except.noConfusion h
    · simp only [hgt] at h
      rcases hgb : getBlock bn with _ | block
      · simp only [hgb] at h
        exact Except.noConfusion h
      · simp only [hgb] at h
        rcases hpf : parseFixed cfg.fromAmount cfg.token.decimals with _ | expected
        · simp only [hpf] at h
          exact Except.noConfusion h
        · simp only [hpf] at h
          split_ifs at h with hcond
          · simp only [Except.ok.injEq, Option.some.injEq] at h
            subst h
            exact ⟨bn, block, hgt, hgb, hcond.2.2.2⟩
          · exact ih event h

/-- Claim C4: in both monitor modes, a destination transaction whose block
timestamp is not strictly after the source-chain event timestamp is never
selected as the matching confirmation — every selected match lies in a
block with `arbitrumTimestamp < block.timestamp`, whatever its sender,
receiver and amount are. -/
theorem monitor_timestamp_gate :
    (∀ (cfg : MonitorConfig) (getBlock : ℤ → Option BBlock)
        (currentBlock lastCheckedBlock : ℤ) (tx : BTx),
      monitorNativeTransfer cfg getBlock currentBlock lastCheckedBlock = .ok (some tx)
      → ∃ blockNumber block, getBlock blockNumber = some block
          ∧ tx ∈ block.transactions ∧ cfg.arbitrumTimestamp < block.timestamp)
    ∧ (∀ (cfg : MonitorConfig) (queryFilter : ℤ → ℤ → List TransferEvent)
        (getTransaction : String → Option ℤ) (getBlock : ℤ → Option BBlock)
        (currentBlock lastCheckedBlock : ℤ) (event : TransferEvent),
      monitorTokenTransfer cfg queryFilter getTransaction getBlock
          currentBlock lastCheckedBlock = .ok (some event)
      → ∃ blockNumber block, getTransaction event.transactionHash = some blockNumber
          ∧ getBlock blockNumber = some block
          ∧ cfg.arbitrumTimestamp < block.timestamp) := by
  constructor
  · intro cfg getBlock currentBlock lastCheckedBlock tx h
    rw [monitorNativeTransfer] at h
    split_ifs at h with hz
    · simp at h
    · rcases scanBlocks_some cfg getBlock _ tx h with ⟨bn, _, block, hgb, hm, hp⟩
      simp only [nativeMatchPred, Bool.and_eq_true, decide_eq_true_eq] at hp
      exact ⟨bn, block, hgb, hm, hp.2⟩
  · intro cfg queryFilter getTransaction getBlock currentBlock lastCheckedBlock event h
    rw [monitorTokenTransfer] at h
    rcases hba : cfg.token.bitlayerAddress with _ | addr
    · simp only [hba] at h
      simp at h
    · simp only [hba] at h
      exact scanEvents_some cfg getTransaction getBlock _ event h

/-- Witness for claim C4: the concrete 0.005 WBTC payout found at height 5,
in a block dated 1500, strictly after the source event at 1000. -/
theorem monitor_timestamp_gate_witness :
    monitorNativeTransfer exMonCfg exGetBlock 5 4 = .ok (some exPayTx)
      ∧ ∃ blockNumber block, exGetBlock blockNumber = some block
          ∧ exPayTx ∈ block.transactions
          ∧ exMonCfg.arbitrumTimestamp < block.timestamp :=
  ⟨by rfl, monitor_timestamp_gate.1 exMonCfg exGetBlock 5 4 exPayTx (by rfl)⟩

/-- Membership in an integer height range. -/
theorem mem_intRange {lo hi x : ℤ} : x ∈ intRange lo hi ↔ lo ≤ x ∧ x ≤ hi := by
  simp only [intRange, List.mem_map, List.mem_range]
  constructor
  · rintro ⟨k, hk, rfl⟩
    omega
  · intro hx
    exact ⟨(x - lo).toNat, by omega, by omega⟩

/-- Heights a native tick scans lie strictly above the cursor and at most
at the head. -/
theorem mem_nativeScanHeights {cur last x : ℤ} (h : x ∈ nativeScanHeights cur last) :
    last < x ∧ x ≤ cur := by
  rw [nativeScanHeights] at h
  split_ifs at h with hz
  · simp at h
  · have := mem_intRange.mp h
    omega

/-- Heights a token tick queries lie strictly above the cursor and at most
at the head. -/
theorem mem_tokenScanHeights {cfg : MonitorConfig} {cur last x : ℤ}
    (h : x ∈ tokenScanHeights cfg cur last) : last < x ∧ x ≤ cur := by
  rw [tokenScanHeights] at h
  rcases hba : cfg.token.bitlayerAddress with _ | addr <;> simp only [hba] at h
  · simp at h
  · have := mem_intRange.mp h
    have hm : last + 1 ≤ max (last + 1) (cur - 1000) := le_max_left _ _
    omega

/-- Per-tick facts: the cursor either stays or jumps to the tick's head;
every scanned height lies strictly between the old cursor and the head; a
non-throwing tick that scanned something either terminated or moved its
cursor to the head; and a terminal state absorbs the tick. -/
theorem tick_facts (cfg : MonitorConfig) (ib : ℤ) (ma : ℕ) (s : MonState) (o : TickObs) :
    ((tick cfg ib ma s o).1.lastCheckedBlock = s.lastCheckedBlock
        ∨ (tick cfg ib ma s o).1.lastCheckedBlock = o.head)
      ∧ (∀ x ∈ (tick cfg ib ma s o).2.scanned, s.lastCheckedBlock < x ∧ x ≤ o.head)
      ∧ ((tick cfg ib ma s o).2.erred = false → (tick cfg ib ma s o).2.scanned ≠ []
          → (tick cfg ib ma s o).1.phase ≠ .monitoring
            ∨ (tick cfg ib ma s o).1.lastCheckedBlock = o.head)
      ∧ (s.phase ≠ .monitoring → tick cfg ib ma s o = (s, ⟨[], false, false⟩)) := by
  obtain ⟨att, lc, ph⟩ := s
  cases ph with
  | confirmed h => simp [tick]
  | timedOut => simp [tick]
  | monitoring =>
    simp only [tick]
    by_cases hma : ma ≤ att
    · simp [if_pos hma]
    · rw [if_neg hma]
      by_cases hnat : cfg.token.isNative
      · by_cases hb : ib < o.balance
        · rcases hmn : monitorNativeTransfer cfg o.getBlock o.head lc with e | r
          · simp only [hnat, if_pos hb, hmn, if_true, Except.map]
            exact ⟨by simp, fun x hx => mem_nativeScanHeights hx, by simp, by simp⟩
          · rcases r with _ | tx
            · simp only [hnat, if_pos hb, hmn, if_true, Except.map, Option.map]
              exact ⟨by simp, fun x hx => mem_nativeScanHeights hx, by simp, by simp⟩
            · simp only [hnat, if_pos hb, hmn, if_true, Except.map, Option.map]
              exact ⟨by simp, fun x hx => mem_nativeScanHeights hx, by simp, by simp⟩
        · simp only [hnat, if_neg hb, if_true]
          exact ⟨by simp, by simp, by simp, by simp⟩
      · have hnat' : cfg.token.isNative = false := by
          cases hcc : cfg.token.isNative
          · rfl
          · exact absurd hcc hnat
        rcases hmt : monitorTokenTransfer cfg o.queryFilter o.getTransaction o.getBlock
            o.head lc with e | r
        · simp only [hnat', hmt, Bool.false_eq_true, if_false, Except.map]
          exact ⟨by simp, fun x hx => mem_tokenScanHeights hx, by simp, by simp⟩
        · rcases r with _ | ev
          · simp only [hnat', hmt, Bool.false_eq_true, if_false, Except.map, Option.map]
            exact ⟨by simp, fun x hx => mem_tokenScanHeights hx, by simp, by simp⟩
          · simp only [hnat', hmt, Bool.false_eq_true, if_false, Except.map, Option.map]
            exact ⟨by simp, fun x hx => mem_tokenScanHeights hx, by simp, by simp⟩

/-- A run started in a terminal phase changes nothing and scans nothing. -/
theorem runFrom_terminal (cfg : MonitorConfig) (ib : ℤ) (ma : ℕ) :
    ∀ (obs : List TickObs) (s : MonState), s.phase ≠ .monitoring
      → (runFrom cfg ib ma s obs).1 = s
        ∧ ∀ lg ∈ (runFrom cfg ib ma s obs).2, lg = ⟨[], false, false⟩ := by
  intro obs
  induction obs with
  | nil => exact fun s _ => ⟨rfl, by simp [runFrom]⟩
  | cons o os ih =>
    intro s hs
    have ht := (tick_facts cfg ib ma s o).2.2.2 hs
    rw [runFrom, ht]
    have := ih s hs
    refine ⟨this.1, ?_⟩
    intro lg hlg
    rcases List.mem_cons.mp hlg with rfl | hlg
    · rfl
    · exact this.2 lg hlg

/-- Lowering the head of a nondecreasing chain keeps it a chain: `a ≤ b` extends a nondecreasing chain leftwards. -/
theorem chainLe_of_le {a b : ℤ} {l : List ℤ} (hab : a ≤ b)
    (h : List.Chain (· ≤ ·) b l) : List.Chain (· ≤ ·) a l := by
  cases h with
  | nil => exact .nil
  | cons hbc hc => exact .cons (le_trans hab hbc) hc

/-- The run-level invariant behind claim C5: with nondecreasing heads and
no throwing tick, the cursor chain is nondecreasing, every scanned height
lies strictly above the starting cursor, and the scanned height sets of
distinct ticks are disjoint. -/
theorem runFrom_cursor_aux (cfg : MonitorConfig) (ib : ℤ) (ma : ℕ) :
    ∀ (obs : List TickObs) (s : MonState),
      List.Chain (· ≤ ·) s.lastCheckedBlock (obs.map (·.head))
      → (∀ lg ∈ (runFrom cfg ib ma s obs).2, lg.erred = false)
      → List.Chain (· ≤ ·) s.lastCheckedBlock
            ((traceFrom cfg ib ma s obs).map (·.lastCheckedBlock))
        ∧ (∀ lg ∈ (runFrom cfg ib ma s obs).2, ∀ x ∈ lg.scanned,
              s.lastCheckedBlock < x)
        ∧ List.Pairwise (fun l₁ l₂ => ∀ x ∈ l₁.scanned, x ∉ l₂.scanned)
            ((runFrom cfg ib ma s obs).2) := by
  intro obs
  induction obs with
  | nil => exact fun s _ _ => ⟨.nil, by simp [runFrom], by simp [runFrom]⟩
  | cons o os ih =>
    intro s hheads hok
    rw [List.map_cons] at hheads
    have hh1 : s.lastCheckedBlock ≤ o.head := (List.chain_cons.mp hheads).1
    have hh2 : List.Chain (· ≤ ·) o.head (os.map (·.head)) := (List.chain_cons.mp hheads).2
    have hf := tick_facts cfg ib ma s o
    have hcur1 : s.lastCheckedBlock ≤ (tick cfg ib ma s o).1.lastCheckedBlock := by
      rcases hf.1 with h | h <;> omega
    have hcur2 : (tick cfg ib ma s o).1.lastCheckedBlock ≤ o.head := by
      rcases hf.1 with h | h <;> omega
    have hok1 : (tick cfg ib ma s o).2.erred = false := by
      refine hok _ ?_
      rw [runFrom]
      exact List.mem_cons_self _ _
    have hok2 : ∀ lg ∈ (runFrom cfg ib ma (tick cfg ib ma s o).1 os).2, lg.erred = false := by
      intro lg hlg
      refine hok lg ?_
      rw [runFrom]
      exact List.mem_cons_of_mem _ hlg
    have hih := ih (tick cfg ib ma s o).1 (chainLe_of_le hcur2 hh2) hok2
    refine ⟨?_, ?_, ?_⟩
    · rw [traceFrom, List.map_cons]
      exact .cons hcur1 hih.1
    · intro lg hlg x hx
      rw [runFrom] at hlg
      rcases List.mem_cons.mp hlg with rfl | hlg
      · exact (hf.2.1 x hx).1
      · exact lt_of_le_of_lt hcur1 (hih.2.1 lg hlg x hx)
    · rw [runFrom]
      refine List.Pairwise.cons ?_ hih.2.2
      intro lg' hlg' x hx hx'
      have hne : (tick cfg ib ma s o).2.scanned ≠ [] := by
        intro hempty
        rw [hempty] at hx
        simp at hx
      rcases hf.2.2.1 hok1 hne with hterm | hhead
      · have := (runFrom_terminal cfg ib ma os (tick cfg ib ma s o).1 hterm).2 lg' hlg'
        rw [this] at hx'
        simp at hx'
      · have h1 : x ≤ o.head := (hf.2.1 x hx).2
        have h2 : (tick cfg ib ma s o).1.lastCheckedBlock < x := hih.2.1 lg' hlg' x hx'
        omega

/-- Counterexample to claim C5 as stated: the cursor/scan property is not
unconditional.  A backwards head observation moves the cursor backwards
(here 10 and then 8, below the setup cursor 9), because every successful
tick ends with `lastCheckedBlock = currentBlock`; and a thrown tick is
caught without advancing the cursor (Bridge.tsx catch block), so the next
tick requests the very same heights again — here both throwing token ticks
query heights 4 and 5, so those heights are inspected in two ticks. -/
theorem monitor_cursor_scan_once_cex :
    ((traceFrom exMonCfg 0 120 (initialMonState 9) [exObsHead10, exObsHead8]).map
          (·.lastCheckedBlock) = [10, 8]
        ∧ ¬ List.Chain (· ≤ ·) (initialMonState 9).lastCheckedBlock
            ((traceFrom exMonCfg 0 120 (initialMonState 9) [exObsHead10, exObsHead8]).map
              (·.lastCheckedBlock)))
      ∧ ((runFrom exUsdtMonCfg 0 120 (initialMonState 3) [exObsErr, exObsErr]).2.map
            (·.scanned) = [[4, 5], [4, 5]]
        ∧ ¬ List.Pairwise (fun l₁ l₂ => ∀ x ∈ l₁.scanned, x ∉ l₂.scanned)
            ((runFrom exUsdtMonCfg 0 120 (initialMonState 3) [exObsErr, exObsErr]).2)) := by
  refine ⟨⟨by decide, ?_⟩, by decide, ?_⟩
  · intro h
    have heq : (traceFrom exMonCfg 0 120 (initialMonState 9)
        [exObsHead10, exObsHead8]).map (·.lastCheckedBlock) = [10, 8] := by decide
    rw [heq] at h
    exact absurd (List.chain_cons.mp (List.chain_cons.mp h).2).1 (by decide)
  · intro h
    have heq : (runFrom exUsdtMonCfg 0 120 (initialMonState 3) [exObsErr, exObsErr]).2
        = [⟨[4, 5], true, false⟩, ⟨[4, 5], true, false⟩] := by decide
    rw [heq] at h
    exact (List.pairwise_cons.mp h).1 ⟨[4, 5], true, false⟩
      (List.mem_cons_self _ _) 4 (by decide) (by decide)

/-- Claim C5, amended: across the ticks of one monitor invocation whose
chain-head observations are nondecreasing (starting at or above the setup
cursor) and whose ticks do not throw, the `lastCheckedBlock` cursor never
decreases, and no destination block height is scanned for candidates in
more than one tick (the per-tick scanned height sets are pairwise
disjoint).  As stated the claim fails: a backwards head observation lowers
the cursor, and a thrown tick keeps the cursor so its span is re-requested
on the next tick — see the counterexample. -/
theorem monitor_cursor_monotone_scan_once (cfg : MonitorConfig) (ib : ℤ) (ma : ℕ)
    (s : MonState) (obs : List TickObs)
    (hheads : List.Chain (· ≤ ·) s.lastCheckedBlock (obs.map (·.head)))
    (hok : ∀ lg ∈ (runFrom cfg ib ma s obs).2, lg.erred = false) :
    List.Chain (· ≤ ·) s.lastCheckedBlock
        ((traceFrom cfg ib ma s obs).map (·.lastCheckedBlock))
      ∧ List.Pairwise (fun l₁ l₂ => ∀ x ∈ l₁.scanned, x ∉ l₂.scanned)
          ((runFrom cfg ib ma s obs).2) :=
  ⟨(runFrom_cursor_aux cfg ib ma obs s hheads hok).1,
   (runFrom_cursor_aux cfg ib ma obs s hheads hok).2.2⟩

/-- Witness for claim C5: a concrete two-tick native run (an idle tick that
advances the cursor from 4 to 5, then a balance-grown tick scanning heights
6 and 7). -/
theorem monitor_cursor_monotone_scan_once_witness :
    List.Chain (· ≤ ·) (initialMonState 4).lastCheckedBlock
        ((traceFrom exMonCfg 0 120 (initialMonState 4) [exObsIdle, exObsGrown]).map
          (·.lastCheckedBlock))
      ∧ List.Pairwise (fun l₁ l₂ => ∀ x ∈ l₁.scanned, x ∉ l₂.scanned)
          ((runFrom exMonCfg 0 120 (initialMonState 4) [exObsIdle, exObsGrown]).2) :=
  monitor_cursor_monotone_scan_once exMonCfg 0 120 (initialMonState 4)
    [exObsIdle, exObsGrown]
    (List.Chain.cons (by decide) (List.Chain.cons (by decide) List.Chain.nil))
    (by decide)

/-- A monitoring tick within the attempt budget that does not find its
match keeps polling and counts one more attempt. -/
theorem tick_progress (cfg : MonitorConfig) (ib : ℤ) (ma : ℕ) (s : MonState) (o : TickObs)
    (hph : s.phase = .monitoring) (hma : ¬ ma ≤ s.attempts)
    (hnm : (tick cfg ib ma s o).2.matched = false) :
    (tick cfg ib ma s o).1.phase = .monitoring
      ∧ (tick cfg ib ma s o).1.attempts = s.attempts + 1 := by
  obtain ⟨att, lc, ph⟩ := s
  cases ph with
  | confirmed h => exact absurd hph (by simp)
  | timedOut => exact absurd hph (by simp)
  | monitoring =>
    simp only [tick, if_neg hma] at hnm ⊢
    by_cases hnat : cfg.token.isNative
    · by_cases hb : ib < o.balance
      · rcases hmn : monitorNativeTransfer cfg o.getBlock o.head lc with e | r
        · simp [hnat, if_pos hb, hmn, Except.map]
        · rcases r with _ | tx
          · simp [hnat, if_pos hb, hmn, Except.map, Option.map]
          · simp only [hnat, if_pos hb, hmn, if_true, Except.map, Option.map] at hnm
            simp at hnm
      · simp [hnat, if_neg hb]
    · have hnat' : cfg.token.isNative = false := by
        cases hcc : cfg.token.isNative
        · rfl
        · exact absurd hcc hnat
      rcases hmt : monitorTokenTransfer cfg o.queryFilter o.getTransaction o.getBlock
          o.head lc with e | r
      · simp [hnat', hmt, Except.map]
      · rcases r with _ | ev
        · simp [hnat', hmt, Except.map, Option.map]
        · simp only [hnat', hmt, Bool.false_eq_true, if_false, Except.map, Option.map] at hnm
          simp at hnm

/-- A monitoring tick whose attempt counter has reached the budget performs
exactly the timeout transition. -/
theorem tick_timeout (cfg : MonitorConfig) (ib : ℤ) (ma : ℕ) (s : MonState) (o : TickObs)
    (hph : s.phase = .monitoring) (hma : ma ≤ s.attempts) :
    tick cfg ib ma s o = ({ s with phase := .timedOut }, ⟨[], false, false⟩) := by
  obtain ⟨att, lc, ph⟩ := s
  cases ph with
  | confirmed h => exact absurd hph (by simp)
  | timedOut => exact absurd hph (by simp)
  | monitoring =>
    simp [tick, if_pos hma]

/-- A matchless run that fires often enough exhausts the attempt budget
and times out with exactly `ma` counted attempts. -/
theorem runFrom_timeout (cfg : MonitorConfig) (ib : ℤ) (ma : ℕ) :
    ∀ (obs : List TickObs) (s : MonState), s.phase = .monitoring
      → s.attempts ≤ ma
      → (∀ lg ∈ (runFrom cfg ib ma s obs).2, lg.matched = false)
      → ma - s.attempts + 1 ≤ obs.length
      → (runFrom cfg ib ma s obs).1.phase = .timedOut
        ∧ (runFrom cfg ib ma s obs).1.attempts = ma := by
  intro obs
  induction obs with
  | nil =>
    intro s _ _ _ hlen
    simp at hlen
  | cons o os ih =>
    intro s hph hle hnm hlen
    by_cases hma : ma ≤ s.attempts
    · have heq : s.attempts = ma := le_antisymm hle hma
      have ht := tick_timeout cfg ib ma s o hph hma
      rw [runFrom, ht]
      have habs := runFrom_terminal cfg ib ma os { s with phase := .timedOut } (by simp)
      rw [habs.1]
      exact ⟨rfl, heq⟩
    · have hnm1 : (tick cfg ib ma s o).2.matched = false := by
        refine hnm _ ?_
        rw [runFrom]
        exact List.mem_cons_self _ _
      have hp := tick_progress cfg ib ma s o hph hma hnm1
      have hnm2 : ∀ lg ∈ (runFrom cfg ib ma (tick cfg ib ma s o).1 os).2,
          lg.matched = false := by
        intro lg hlg
        refine hnm lg ?_
        rw [runFrom]
        exact List.mem_cons_of_mem _ hlg
      have := ih (tick cfg ib ma s o).1 hp.1 (by omega) hnm2
        (by simp only [List.length_cons] at hlen; omega)
      rw [runFrom]
      exact this

/-- Claim C6: a monitor invocation with `maxAttempts = 3` whose ticks never
find a matching destination transaction performs exactly 3 scanning
attempts and transitions to the timed-out terminal state (the transition
itself happens on the next interval firing, which scans nothing). -/
theorem monitor_timeout_after_three_ticks (cfg : MonitorConfig) (ib lc : ℤ)
    (obs : List TickObs) (hlen : 4 ≤ obs.length)
    (hnm : ∀ lg ∈ (runFrom cfg ib 3 (initialMonState lc) obs).2, lg.matched = false) :
    (runFrom cfg ib 3 (initialMonState lc) obs).1.phase = .timedOut
      ∧ (runFrom cfg ib 3 (initialMonState lc) obs).1.attempts = 3 :=
  runFrom_timeout cfg ib 3 obs (initialMonState lc) rfl
    (by simp [initialMonState]) hnm (by simp only [initialMonState]; omega)

/-- Witness for claim C6: four content-free token-mode ticks time the
monitor out with exactly 3 counted attempts. -/
theorem monitor_timeout_after_three_ticks_witness :
    (runFrom exTokMonCfg 0 3 (initialMonState 0)
        [exObsTok, exObsTok, exObsTok, exObsTok]).1.phase = .timedOut
      ∧ (runFrom exTokMonCfg 0 3 (initialMonState 0)
          [exObsTok, exObsTok, exObsTok, exObsTok]).1.attempts = 3 :=
  monitor_timeout_after_three_ticks exTokMonCfg 0 0
    [exObsTok, exObsTok, exObsTok, exObsTok] (by decide) (by decide)

/-- The little-endian fuel-driven digits of `n` recombine to `n`. -/
theorem natDigitsRev_val : ∀ (fuel n : ℕ), n ≤ fuel
    → (natDigitsRev fuel n).foldr (fun d acc => 10 * acc + d) 0 = n := by
  intro fuel
  induction fuel with
  | zero => intro n hn; interval_cases n; simp [natDigitsRev]
  | succ f ih =>
    intro n hn
    rw [natDigitsRev]
    by_cases h0 : n = 0
    · simp [h0]
    · rw [if_neg h0]
      simp only [List.foldr_cons]
      have hrec : n / 10 ≤ f := by omega
      rw [ih (n / 10) hrec]
      omega

/-- Every fuel-driven digit is below 10. -/
theorem natDigitsRev_lt : ∀ (fuel n d : ℕ), d ∈ natDigitsRev fuel n → d < 10 := by
  intro fuel
  induction fuel with
  | zero => intro n d hd; simp [natDigitsRev] at hd
  | succ f ih =>
    intro n d hd
    rw [natDigitsRev] at hd
    by_cases h0 : n = 0
    · rw [if_pos h0] at hd; simp at hd
    · rw [if_neg h0] at hd
      rcases List.mem_cons.mp hd with rfl | hd
      · omega
      · exact ih _ _ hd

/-- At most `k` fuel-driven digits below `10 ^ k`. -/
theorem natDigitsRev_length : ∀ (fuel n k : ℕ), n ≤ fuel → n < 10 ^ k
    → (natDigitsRev fuel n).length ≤ k := by
  intro fuel
  induction fuel with
  | zero => intro n k hn _; interval_cases n; simp [natDigitsRev]
  | succ f ih =>
    intro n k hn hk
    rw [natDigitsRev]
    by_cases h0 : n = 0
    · simp [h0]
    · rw [if_neg h0]
      have hk0 : k ≠ 0 := by
        intro h
        rw [h] at hk
        omega
      have hd : n / 10 < 10 ^ (k - 1) := by
        rw [Nat.div_lt_iff_lt_mul (by omega : 0 < 10)]
        calc n < 10 ^ k := hk
        _ = 10 ^ (k - 1) * 10 := by
          rw [← pow_succ]
          congr 1
          omega
      have := ih (n / 10) (k - 1) (by omega) hd
      simp only [List.length_cons]
      omega

/-- Digit characters decode back to their digit. -/
theorem charVal_ofNat {d : ℕ} (hd : d < 10) : charVal (Char.ofNat (d + 48)) = d := by
  interval_cases d <;> decide

/-- Digit characters are digits. -/
theorem isDigit_ofNat {d : ℕ} (hd : d < 10) : (Char.ofNat (d + 48)).isDigit = true := by
  interval_cases d <;> decide

/-- A digit character is not the dot. -/
theorem ne_dot_of_isDigit {c : Char} (hc : c.isDigit = true) : c ≠ '.' := by
  intro h
  rw [h] at hc
  exact absurd hc (by decide)

/-- Decoding inverts encoding: `digitsVal` decodes the characters `natChars` encodes. -/
theorem digitsVal_natChars (n : ℕ) : digitsVal (natChars n) = n := by
  rw [natChars]
  by_cases h0 : n = 0
  · simp [h0, digitsVal, charVal]
  · rw [if_neg h0]
    rw [digitsVal, List.foldl_reverse]
    have hfold : ∀ (L : List ℕ), (∀ d ∈ L, d < 10)
        → (L.map (fun d => Char.ofNat (d + 48))).foldr
            (fun c acc => 10 * acc + charVal c) 0
          = L.foldr (fun d acc => 10 * acc + d) 0 := by
      intro L
      induction L with
      | nil => intro _; rfl
      | cons d t iht =>
        intro hlt
        simp only [List.map_cons, List.foldr_cons]
        rw [iht (fun e he => hlt e (List.mem_cons_of_mem _ he)),
          charVal_ofNat (hlt d (List.mem_cons_self _ _))]
    have h1 := hfold (natDigitsRev n n) (fun d hd => natDigitsRev_lt n n d hd)
    have h2 := natDigitsRev_val n n le_rfl
    calc ((natDigitsRev n n).map (fun d => Char.ofNat (d + 48))).foldr
          (fun c acc => 10 * acc + charVal c) 0
        = (natDigitsRev n n).foldr (fun d acc => 10 * acc + d) 0 := h1
      _ = n := h2

/-- Rendering produces only digit characters: `natChars` produces only digit characters. -/
theorem natChars_isDigit (n : ℕ) : ∀ c ∈ natChars n, c.isDigit = true := by
  rw [natChars]
  by_cases h0 : n = 0
  · simp [h0]
  · rw [if_neg h0]
    intro c hc
    rw [List.mem_reverse] at hc
    rcases List.mem_map.mp hc with ⟨d, hd, rfl⟩
    exact isDigit_ofNat (natDigitsRev_lt n n d hd)

/-- Rendered numerals are never empty: `natChars` is never empty. -/
theorem natChars_ne_nil (n : ℕ) : natChars n ≠ [] := by
  rw [natChars]
  by_cases h0 : n = 0
  · simp [h0]
  · rw [if_neg h0]
    obtain ⟨f, rfl⟩ : ∃ f, n = f + 1 := ⟨n - 1, by omega⟩
    rw [natDigitsRev, if_neg h0]
    simp

/-- Rendered length bound: `natChars` of a value below `10 ^ k` (with `1 ≤ k`) has at most `k`
characters. -/
theorem natChars_length {n k : ℕ} (hk : 1 ≤ k) (hn : n < 10 ^ k) :
    (natChars n).length ≤ k := by
  rw [natChars]
  by_cases h0 : n = 0
  · simp [h0]; omega
  · rw [if_neg h0]
    simp only [List.length_reverse, List.length_map]
    exact natDigitsRev_length n n k le_rfl hn

/-- Leading zero characters do not change a digit string's value. -/
theorem digitsVal_padZeros (k : ℕ) (l : List Char) :
    digitsVal (padZeros k l) = digitsVal l := by
  rw [padZeros, digitsVal, digitsVal, List.foldl_append]
  have : ∀ (z : ℕ), (List.replicate z '0').foldl
      (fun acc c => 10 * acc + charVal c) 0 = 0 := by
    intro z
    induction z with
    | zero => rfl
    | succ m ihm => rw [List.replicate_succ, List.foldl_cons]; simpa [charVal] using ihm
  rw [this]

/-- Splitting a dot-free list finds no dot. -/
theorem breakDot_no_dot : ∀ {l : List Char}, '.' ∉ l → breakDot l = (l, none) := by
  intro l
  induction l with
  | nil => intro _; rfl
  | cons c t iht =>
    intro hl
    have h1 : ¬ '.' = c ∧ '.' ∉ t := by simpa [List.mem_cons, not_or] using hl
    rw [breakDot, if_neg (fun h => h1.1 h.symm), iht h1.2]

/-- Splitting at the first dot after a dot-free prefix. -/
theorem breakDot_append : ∀ {a : List Char}, '.' ∉ a → ∀ (b : List Char),
    breakDot (a ++ '.' :: b) = (a, some b) := by
  intro a
  induction a with
  | nil => intro _ b; simp [breakDot]
  | cons c t iht =>
    intro ha b
    have h1 : ¬ '.' = c ∧ '.' ∉ t := by simpa [List.mem_cons, not_or] using ha
    rw [List.cons_append, breakDot, if_neg (fun h => h1.1 h.symm), iht h1.2 b]

/-- The spec's amount parser inverts the full-precision renderer. -/
theorem specParseAmount_format (m p : ℕ) :
    specParseAmount (formatAmountFull m p) p = some m := by
  by_cases hp : p = 0
  · subst hp
    rw [formatAmountFull, if_pos rfl, specParseAmount]
    have hne : (String.mk (natChars m)).data = natChars m := rfl
    rw [hne, if_neg (by simp [natChars_ne_nil m]),
      if_neg (by
        simp only [Bool.not_eq_true']
        rw [Bool.not_eq_false, List.all_eq_true]
        intro c hc
        simp [natChars_isDigit m c hc]),
      breakDot_no_dot (fun h => ne_dot_of_isDigit (natChars_isDigit m _ h) rfl)]
    simp [digitsVal_natChars]
  · rw [formatAmountFull, if_neg hp, specParseAmount]
    set W := natChars (m / 10 ^ p) with hW
    set F := padZeros p (natChars (m % 10 ^ p)) with hF
    have hWd : ∀ c ∈ W, c.isDigit = true := natChars_isDigit _
    have hFd : ∀ c ∈ F, c.isDigit = true := by
      intro c hc
      rw [hF, padZeros] at hc
      rcases List.mem_append.mp hc with hc | hc
      · rw [List.eq_of_mem_replicate hc]; decide
      · exact natChars_isDigit _ c hc
    have hWdot : '.' ∉ W := fun h => ne_dot_of_isDigit (hWd _ h) rfl
    have hdata : (String.mk (W ++ '.' :: F)).data = W ++ '.' :: F := rfl
    rw [hdata, if_neg (by simp), if_neg (by
        simp only [Bool.not_eq_true']
        rw [Bool.not_eq_false, List.all_eq_true]
        intro c hc
        rcases List.mem_append.mp hc with hc | hc
        · simp [hWd c hc]
        · rcases List.mem_cons.mp hc with rfl | hc
          · simp
          · simp [hFd c hc]),
      breakDot_append hWdot F]
    have hFlen : F.length = p := by
      rw [hF, padZeros, List.length_append, List.length_replicate]
      have hlt : m % 10 ^ p < 10 ^ p := Nat.mod_lt _ (by positivity)
      have := natChars_length (by omega : 1 ≤ p) hlt
      omega
    have hany : (F.any fun x => x == '.') = false := by
      simp only [List.any_eq_false]
      intro c hc
      simpa using ne_dot_of_isDigit (hFd c hc)
    have hWne : W.isEmpty = false := by
      rw [hW]
      simpa [List.isEmpty_iff] using natChars_ne_nil (m / 10 ^ p)
    have hlen2 : ¬ p < F.length := by omega
    simp only [hany, Bool.false_eq_true, if_false, hWne, false_and, hlen2,
      Option.some.injEq]
    rw [hFlen, Nat.sub_self, pow_zero, mul_one, hF, digitsVal_padZeros,
      hW, digitsVal_natChars, digitsVal_natChars]
    rw [Nat.mul_comm]
    exact Nat.div_add_mod m (10 ^ p)

/-- Claim C7 (for the spec-modelled translator): translating a well-formed
non-negative decimal from precision `p1` up to `p2 ≥ p1` and back is exact:
the upscaled rendering parses back to the upscaled integer, scaling back
down recovers the original amount exactly, and the final rendering denotes
precisely the original value (for inputs already in full-precision form,
such as the spec's 0.00500000, it IS the original string, as the witness
shows). -/
theorem translate_roundtrip (x : String) (p1 p2 : ℕ) (hp : p1 ≤ p2) (n : ℕ)
    (hx : specParseAmount x p1 = some n) :
    translateAmount x p1 p2 = some (formatAmountFull (n * 10 ^ (p2 - p1)) p2)
      ∧ translateAmount (formatAmountFull (n * 10 ^ (p2 - p1)) p2) p2 p1
          = some (formatAmountFull n p1)
      ∧ specParseAmount (formatAmountFull n p1) p1 = some n := by
  refine ⟨?_, ?_, specParseAmount_format n p1⟩
  · rw [translateAmount, hx, Option.map_some']
    rw [if_pos hp]
  · rw [translateAmount, specParseAmount_format, Option.map_some']
    congr 1
    by_cases hev : p2 ≤ p1
    · have hpp : p1 = p2 := le_antisymm hp hev
      subst hpp
      rw [if_pos le_rfl]
      simp
    · rw [if_neg hev]
      congr 1
      exact Nat.mul_div_cancel n (by positivity)

/-- Witness for claim C7: `0.00500000` WBTC (8 decimals) up to 18 decimals
and back — the renderings are exactly `0.005000000000000000` and
`0.00500000`. -/
theorem translate_roundtrip_witness :
    formatAmountFull 500000 8 = "0.00500000"
      ∧ formatAmountFull (500000 * 10 ^ (18 - 8)) 18 = "0.005000000000000000"
      ∧ (translateAmount "0.00500000" 8 18
            = some (formatAmountFull (500000 * 10 ^ (18 - 8)) 18)
          ∧ translateAmount (formatAmountFull (500000 * 10 ^ (18 - 8)) 18) 18 8
              = some (formatAmountFull 500000 8)
          ∧ specParseAmount (formatAmountFull 500000 8) 8 = some 500000) :=
  ⟨by decide, by decide,
    translate_roundtrip "0.00500000" 8 18 (by omega) 500000 (by decide)⟩

